import Mathlib

/-!
Verification of the bcon P2P audio application core against its design
specification.  The development shallow-embeds the source modules:

* `compression-utils.js`  — payload codec (JSON + deflate + base64);
  the external pako/btoa pipeline is modelled as an abstract encoder
  with the library's documented inverse contract, while the JSON
  serialization performed by the repository's own pipeline is modelled
  concretely with a verified printer/reader pair.
* `state-manager.js`      — connection registry, pending negotiations,
  expiry timers (JS setTimeout/clearTimeout modelled as an explicit
  scheduled-timer list with an enabledness-guarded firing step).
* `webrtc-manager.js`     — negotiation engine and media gate; the
  browser transport primitives (RTCPeerConnection, getUserMedia) are
  external collaborators whose outcomes enter as parameters, and whose
  observable effects (close calls, attached senders) are tracked in the
  state.
-/

/-! ## Association lists (JS `Map` model: keyed lookup, overwrite, delete) -/

def alookup {κ α : Type} [DecidableEq κ] (k : κ) : List (κ × α) → Option α
  | [] => none
  | (k', v) :: t => if k' = k then some v else alookup k t

def aerase {κ α : Type} [DecidableEq κ] (k : κ) : List (κ × α) → List (κ × α)
  | [] => []
  | (k', v) :: t => if k' = k then aerase k t else (k', v) :: aerase k t

/-- JS `Map.set`: overwrite any previous binding of `k`. -/
def aset {κ α : Type} [DecidableEq κ] (k : κ) (v : α) (l : List (κ × α)) :
    List (κ × α) :=
  (k, v) :: aerase k l

theorem alookup_aerase_self {κ α : Type} [DecidableEq κ] (k : κ)
    (l : List (κ × α)) : alookup k (aerase k l) = none := by
  induction l with
  | nil => rfl
  | cons p t ih =>
    obtain ⟨k', v⟩ := p
    by_cases h : k' = k <;> simp [aerase, alookup, h, ih]

theorem alookup_aerase_ne {κ α : Type} [DecidableEq κ] {k k' : κ}
    (l : List (κ × α)) (h : k' ≠ k) :
    alookup k' (aerase k l) = alookup k' l := by
  induction l with
  | nil => rfl
  | cons p t ih =>
    obtain ⟨k₀, v⟩ := p
    by_cases h0 : k₀ = k
    · subst h0
      simp [aerase, alookup, Ne.symm h, ih]
    · by_cases h1 : k₀ = k' <;> simp [aerase, alookup, h0, h1, h, ih]

theorem alookup_aset_self {κ α : Type} [DecidableEq κ] (k : κ) (v : α)
    (l : List (κ × α)) : alookup k (aset k v l) = some v := by
  simp [aset, alookup]

theorem alookup_aset_ne {κ α : Type} [DecidableEq κ] {k k' : κ} (v : α)
    (l : List (κ × α)) (h : k' ≠ k) :
    alookup k' (aset k v l) = alookup k' l := by
  simp [aset, alookup, Ne.symm h, alookup_aerase_ne l h]

/-! ## JSON values

JS payload objects are plain JSON data; numbers appearing in payloads are
modelled as integers. -/

inductive Json where
  | null : Json
  | bool : Bool → Json
  | num  : Int → Json
  | str  : String → Json
  | arr  : List Json → Json
  | obj  : List (String × Json) → Json

mutual

def jbeq : Json → Json → Bool
  | .null, .null => true
  | .bool a, .bool b => a == b
  | .num a, .num b => a == b
  | .str a, .str b => a == b
  | .arr a, .arr b => jbeqList a b
  | .obj a, .obj b => jbeqObj a b
  | _, _ => false

def jbeqList : List Json → List Json → Bool
  | [], [] => true
  | a :: as, b :: bs => jbeq a b && jbeqList as bs
  | _, _ => false

def jbeqObj : List (String × Json) → List (String × Json) → Bool
  | [], [] => true
  | (k, a) :: as, (k', b) :: bs => k == k' && (jbeq a b && jbeqObj as bs)
  | _, _ => false

end

mutual

theorem jbeq_iff : ∀ a b : Json, (jbeq a b = true) ↔ a = b
  | .null, b => by cases b <;> simp [jbeq]
  | .bool x, b => by cases b <;> simp [jbeq]
  | .num x, b => by cases b <;> simp [jbeq]
  | .str x, b => by cases b <;> simp [jbeq]
  | .arr xs, b => by
    cases b <;> simp [jbeq]
    exact jbeqList_iff xs _
  | .obj ms, b => by
    cases b <;> simp [jbeq]
    exact jbeqObj_iff ms _

theorem jbeqList_iff : ∀ a b : List Json, (jbeqList a b = true) ↔ a = b
  | [], b => by cases b <;> simp [jbeqList]
  | x :: xs, b => by
    cases b <;> simp [jbeqList]
    rw [jbeq_iff, jbeqList_iff]

theorem jbeqObj_iff : ∀ a b : List (String × Json), (jbeqObj a b = true) ↔ a = b
  | [], b => by cases b <;> simp [jbeqObj]
  | (k, x) :: xs, b => by
    cases b with
    | nil => simp [jbeqObj]
    | cons p t =>
      obtain ⟨k', y⟩ := p
      simp [jbeqObj]
      rw [jbeq_iff, jbeqObj_iff]
      tauto

end

instance : DecidableEq Json := fun a b => decidable_of_iff _ (jbeq_iff a b)

/-! ### `JSON.stringify` (canonical form: no whitespace, insertion order) -/

/-- Digit loop for decimal printing, fuel-guarded so that it is
structurally recursive (any fuel above `n` gives the digits of `n`,
most significant first, in front of `acc`). -/
def natToCharsAux : Nat → Nat → List Char → List Char
  | 0, _, acc => acc
  | fuel + 1, n, acc =>
    if n < 10 then Char.ofNat (48 + n) :: acc
    else natToCharsAux fuel (n / 10) (Char.ofNat (48 + n % 10) :: acc)

/-- Decimal digits of `n`, most significant first. -/
def natToChars (n : Nat) : List Char := natToCharsAux (n + 1) n []

theorem natToCharsAux_fuel : ∀ n fuel₁ fuel₂ acc, n < fuel₁ → n < fuel₂ →
    natToCharsAux fuel₁ n acc = natToCharsAux fuel₂ n acc := by
  intro n
  induction n using Nat.strong_induction_on with
  | _ n ih =>
    intro fuel₁ fuel₂ acc h₁ h₂
    cases fuel₁ with
    | zero => omega
    | succ f₁ =>
      cases fuel₂ with
      | zero => omega
      | succ f₂ =>
        simp only [natToCharsAux]
        split
        · rfl
        · rename_i hn
          exact ih (n / 10) (Nat.div_lt_self (by omega) (by omega)) f₁ f₂ _
            (by have := Nat.div_lt_self (show 0 < n by omega) (show 1 < 10 by omega); omega)
            (by have := Nat.div_lt_self (show 0 < n by omega) (show 1 < 10 by omega); omega)

theorem natToCharsAux_acc : ∀ n fuel acc, n < fuel →
    natToCharsAux fuel n acc = natToCharsAux fuel n [] ++ acc := by
  intro n
  induction n using Nat.strong_induction_on with
  | _ n ih =>
    intro fuel acc h
    cases fuel with
    | zero => omega
    | succ f =>
      simp only [natToCharsAux]
      split
      · rfl
      · rename_i hn
        have hlt : n / 10 < n := Nat.div_lt_self (by omega) (by omega)
        have hf : n / 10 < f := by omega
        rw [ih (n / 10) hlt f (Char.ofNat (48 + n % 10) :: acc) hf,
            ih (n / 10) hlt f [Char.ofNat (48 + n % 10)] hf]
        simp

/-- The recursive unfolding of `natToChars`. -/
theorem natToChars_eq (n : Nat) :
    natToChars n = if n < 10 then [Char.ofNat (48 + n)]
      else natToChars (n / 10) ++ [Char.ofNat (48 + n % 10)] := by
  rw [natToChars, natToCharsAux]
  split
  · rfl
  · rename_i hn
    have hlt : n / 10 < n := Nat.div_lt_self (by omega) (by omega)
    rw [natToCharsAux_acc (n / 10) n _ (by omega),
        natToCharsAux_fuel (n / 10) n (n / 10 + 1) [] (by omega) (by omega)]
    rfl

def intToChars (i : Int) : List Char :=
  if i < 0 then '-' :: natToChars i.natAbs else natToChars i.natAbs

/-- `JSON.stringify` escaping of one string character.  Control characters
are not modelled (payload validity excludes them below). -/
def escapeChar (c : Char) : List Char :=
  if c = '"' ∨ c = '\\' then ['\\', c] else [c]

def escapeString : List Char → List Char
  | [] => []
  | c :: t => escapeChar c ++ escapeString t

def strLit (s : String) : List Char :=
  '"' :: (escapeString s.data ++ ['"'])

mutual

def stringifyJson : Json → List Char
  | .null => 'n' :: 'u' :: 'l' :: 'l' :: []
  | .bool true => 't' :: 'r' :: 'u' :: 'e' :: []
  | .bool false => 'f' :: 'a' :: 'l' :: 's' :: 'e' :: []
  | .num i => intToChars i
  | .str s => strLit s
  | .arr xs => '[' :: (stringifyArr xs ++ [']'])
  | .obj ms => '{' :: (stringifyObj ms ++ ['}'])

def stringifyArr : List Json → List Char
  | [] => []
  | [x] => stringifyJson x
  | x :: y :: t => stringifyJson x ++ ',' :: stringifyArr (y :: t)

def stringifyObj : List (String × Json) → List Char
  | [] => []
  | [(k, v)] => strLit k ++ ':' :: stringifyJson v
  | (k, v) :: m :: t => strLit k ++ ':' :: stringifyJson v ++ ',' :: stringifyObj (m :: t)

end

/-! ### A reader for the canonical output of `JSON.stringify`

Models `JSON.parse` on the whitespace-free canonical strings the codec
produces (and fails on garbage input, as `JSON.parse` throws). -/

def isDigitC (c : Char) : Bool := 48 ≤ c.toNat && c.toNat ≤ 57

/-- A continuation that cannot be mistaken for more digits of a number. -/
def notDigitStart : List Char → Prop
  | [] => True
  | c :: _ => isDigitC c = false

def takeDigits : List Char → List Char × List Char
  | [] => ([], [])
  | c :: t =>
    if isDigitC c then ((c :: (takeDigits t).1), (takeDigits t).2)
    else ([], c :: t)

def digitsToNat (ds : List Char) : Nat :=
  ds.foldl (fun a c => a * 10 + (c.toNat - 48)) 0

/-- Reads a string body up to the closing unescaped quote, undoing the
backslash escapes of `escapeString`. -/
def parseStringBody : List Char → Option (List Char × List Char)
  | [] => none
  | c :: t =>
    if c = '\\' then
      match t with
      | [] => none
      | d :: t' => (parseStringBody t').map (fun r => (d :: r.1, r.2))
    else if c = '"' then some ([], t)
    else (parseStringBody t).map (fun r => (c :: r.1, r.2))

mutual

def pJson : Nat → List Char → Option (Json × List Char)
  | 0, _ => none
  | _ + 1, [] => none
  | fuel + 1, c :: t =>
    if c = 'n' then
      match t with
      | 'u' :: 'l' :: 'l' :: t' => some (.null, t')
      | _ => none
    else if c = 't' then
      match t with
      | 'r' :: 'u' :: 'e' :: t' => some (.bool true, t')
      | _ => none
    else if c = 'f' then
      match t with
      | 'a' :: 'l' :: 's' :: 'e' :: t' => some (.bool false, t')
      | _ => none
    else if c = '"' then
      (parseStringBody t).map (fun r => (.str (String.mk r.1), r.2))
    else if c = '[' then
      (pElems fuel t).map (fun r => (.arr r.1, r.2))
    else if c = '{' then
      (pFields fuel t).map (fun r => (.obj r.1, r.2))
    else if c = '-' then
      match t with
      | [] => none
      | d :: t' =>
        if isDigitC d then
          some (.num (-(digitsToNat (d :: (takeDigits t').1) : Int)),
                (takeDigits t').2)
        else none
    else if isDigitC c then
      some (.num ((digitsToNat (c :: (takeDigits t).1) : Int)), (takeDigits t).2)
    else none

/-- Parses `e1,e2,...,en]` (n may be 0). -/
def pElems : Nat → List Char → Option (List Json × List Char)
  | 0, _ => none
  | _ + 1, [] => none
  | fuel + 1, c :: t =>
    if c = ']' then some ([], t)
    else
      match pJson fuel (c :: t) with
      | some (v, ',' :: t') => (pElems fuel t').map (fun r => (v :: r.1, r.2))
      | some (v, ']' :: t') => some ([v], t')
      | _ => none

/-- Parses `"k1":v1,...,"kn":vn}` (n may be 0). -/
def pFields : Nat → List Char → Option (List (String × Json) × List Char)
  | 0, _ => none
  | _ + 1, [] => none
  | fuel + 1, c :: t =>
    if c = '}' then some ([], t)
    else if c = '"' then
      match parseStringBody t with
      | some (k, ':' :: t') =>
        match pJson fuel t' with
        | some (v, ',' :: t'') =>
          (pFields fuel t'').map (fun r => ((String.mk k, v) :: r.1, r.2))
        | some (v, '}' :: t'') => some ([(String.mk k, v)], t'')
        | _ => none
      | _ => none
    else none

end

/-- `JSON.parse` model: the whole input must be one JSON value. -/
def parseJsonStr (s : String) : Option Json :=
  match pJson (s.data.length + 1) s.data with
  | some (v, []) => some v
  | _ => none

/-! ### Round trip: the reader inverts the printer -/

mutual

def jfuel : Json → Nat
  | .null => 1
  | .bool _ => 1
  | .num _ => 1
  | .str _ => 1
  | .arr xs => 1 + lfuel xs
  | .obj ms => 1 + ofuel ms

def lfuel : List Json → Nat
  | [] => 1
  | x :: xs => 1 + max (jfuel x) (lfuel xs)

def ofuel : List (String × Json) → Nat
  | [] => 1
  | (_, v) :: ms => 1 + max (jfuel v) (ofuel ms)

end

theorem jfuel_pos (v : Json) : 1 ≤ jfuel v := by
  cases v <;> simp [jfuel]

theorem lfuel_pos (xs : List Json) : 1 ≤ lfuel xs := by
  cases xs <;> simp [lfuel]

theorem ofuel_pos (ms : List (String × Json)) : 1 ≤ ofuel ms := by
  cases ms with
  | nil => simp [ofuel]
  | cons p t => obtain ⟨k, v⟩ := p; simp [ofuel]

theorem isDigitC_ofNat {n : Nat} (h : n < 10) :
    isDigitC (Char.ofNat (48 + n)) = true := by
  interval_cases n <;> decide

theorem toNat_ofNat_digit {n : Nat} (h : n < 10) :
    (Char.ofNat (48 + n)).toNat = 48 + n := by
  interval_cases n <;> decide

theorem natToChars_digits (n : Nat) : ∀ c ∈ natToChars n, isDigitC c = true := by
  induction n using Nat.strong_induction_on with
  | _ n ih =>
    rw [natToChars_eq]
    split
    · intro c hc
      simp only [List.mem_singleton] at hc
      subst hc
      exact isDigitC_ofNat (by omega)
    · intro c hc
      rw [List.mem_append] at hc
      rcases hc with hc | hc
      · exact ih (n / 10) (Nat.div_lt_self (by omega) (by omega)) c hc
      · simp only [List.mem_singleton] at hc
        subst hc
        exact isDigitC_ofNat (Nat.mod_lt _ (by omega))

theorem natToChars_ne_nil (n : Nat) : natToChars n ≠ [] := by
  rw [natToChars_eq]
  split
  · simp
  · simp

theorem digitsToNat_natToChars (n : Nat) : digitsToNat (natToChars n) = n := by
  induction n using Nat.strong_induction_on with
  | _ n ih =>
    rw [natToChars_eq]
    split
    · rename_i h
      simp [digitsToNat, List.foldl, toNat_ofNat_digit h]
    · rename_i h
      have hmod : n % 10 < 10 := Nat.mod_lt _ (by omega)
      have hdiv := ih (n / 10) (Nat.div_lt_self (by omega) (by omega))
      simp only [digitsToNat, List.foldl_append, List.foldl] at hdiv ⊢
      rw [hdiv, toNat_ofNat_digit hmod]
      omega

theorem takeDigits_append (ds rest : List Char)
    (hds : ∀ c ∈ ds, isDigitC c = true) (hrest : notDigitStart rest) :
    takeDigits (ds ++ rest) = (ds, rest) := by
  induction ds with
  | nil =>
    cases rest with
    | nil => rfl
    | cons c t =>
      simp only [notDigitStart] at hrest
      simp [takeDigits, hrest]
  | cons d t ih =>
    have hd : isDigitC d = true := hds d (by simp)
    have ih' := ih (fun c hc => hds c (by simp [hc]))
    simp [takeDigits, hd, ih']

theorem parseStringBody_quote (t : List Char) :
    parseStringBody ('"' :: t) = some ([], t) := by
  rw [parseStringBody.eq_def]
  simp

theorem parseStringBody_esc (d : Char) (t : List Char) :
    parseStringBody ('\\' :: d :: t) =
      (parseStringBody t).map (fun r => (d :: r.1, r.2)) := by
  rw [parseStringBody.eq_def]
  simp

theorem parseStringBody_raw {c : Char} (h1 : c ≠ '"') (h2 : c ≠ '\\')
    (t : List Char) :
    parseStringBody (c :: t) =
      (parseStringBody t).map (fun r => (c :: r.1, r.2)) := by
  rw [parseStringBody.eq_def]
  simp [h1, h2]

theorem parseStringBody_escape (s rest : List Char) :
    parseStringBody (escapeString s ++ '"' :: rest) = some (s, rest) := by
  induction s with
  | nil => simp [escapeString, parseStringBody_quote]
  | cons c t ih =>
    by_cases h : c = '"' ∨ c = '\\'
    · have he : escapeChar c = ['\\', c] := by rw [escapeChar, if_pos h]
      simp only [escapeString, he, List.cons_append, List.append_assoc]
      rw [parseStringBody_esc]
      simp only [List.nil_append]
      rw [ih]
      rfl
    · have h1 : c ≠ '"' := fun hc => h (Or.inl hc)
      have h2 : c ≠ '\\' := fun hc => h (Or.inr hc)
      have he : escapeChar c = [c] := by rw [escapeChar, if_neg h]
      simp only [escapeString, he, List.cons_append, List.append_assoc]
      rw [parseStringBody_raw h1 h2]
      simp only [List.nil_append]
      rw [ih]
      rfl

theorem string_mk_data (s : String) : String.mk s.data = s := rfl

theorem digit_not_special {c : Char} (h : isDigitC c = true) :
    c ≠ 'n' ∧ c ≠ 't' ∧ c ≠ 'f' ∧ c ≠ '"' ∧ c ≠ '[' ∧ c ≠ '{' ∧
    c ≠ '-' ∧ c ≠ ']' := by
  refine ⟨?_, ?_, ?_, ?_, ?_, ?_, ?_, ?_⟩ <;>
    (rintro rfl; exact absurd h (by decide))

theorem stringify_head (v : Json) :
    ∃ c cs, stringifyJson v = c :: cs ∧ c ≠ ']' := by
  cases v with
  | null => exact ⟨'n', _, rfl, by decide⟩
  | bool b => cases b
              · exact ⟨'f', _, rfl, by decide⟩
              · exact ⟨'t', _, rfl, by decide⟩
  | num i =>
    by_cases h : i < 0
    · refine ⟨'-', natToChars i.natAbs, ?_, by decide⟩
      simp [stringifyJson, intToChars, h]
    · obtain ⟨d, ds, hnat⟩ : ∃ d ds, natToChars i.natAbs = d :: ds := by
        cases hx : natToChars i.natAbs with
        | nil => exact absurd hx (natToChars_ne_nil _)
        | cons d ds => exact ⟨d, ds, rfl⟩
      have hd : isDigitC d = true := natToChars_digits _ d (by rw [hnat]; simp)
      refine ⟨d, ds, ?_, (digit_not_special hd).2.2.2.2.2.2.2⟩
      simp [stringifyJson, intToChars, h, hnat]
  | str s => exact ⟨'"', _, rfl, by decide⟩
  | arr xs => exact ⟨'[', _, rfl, by decide⟩
  | obj ms => exact ⟨'{', _, rfl, by decide⟩

theorem stringify_len_pos (v : Json) : 1 ≤ (stringifyJson v).length := by
  obtain ⟨c, cs, hv, _⟩ := stringify_head v
  rw [hv]
  simp

theorem natToChars_cons (n : Nat) :
    ∃ d ds, natToChars n = d :: ds ∧ isDigitC d = true ∧
      (∀ c ∈ ds, isDigitC c = true) ∧ digitsToNat (d :: ds) = n := by
  cases hx : natToChars n with
  | nil => exact absurd hx (natToChars_ne_nil n)
  | cons d ds =>
    have hd := natToChars_digits n d (by rw [hx]; simp)
    have hds : ∀ c ∈ ds, isDigitC c = true :=
      fun c hc => natToChars_digits n c (by rw [hx]; simp [hc])
    have hv := digitsToNat_natToChars n
    rw [hx] at hv
    exact ⟨d, ds, rfl, hd, hds, hv⟩

theorem pJson_null (f : Nat) (t : List Char) :
    pJson (f + 1) ('n' :: 'u' :: 'l' :: 'l' :: t) = some (.null, t) := by
  rw [pJson.eq_def]; simp

theorem pJson_true (f : Nat) (t : List Char) :
    pJson (f + 1) ('t' :: 'r' :: 'u' :: 'e' :: t) = some (.bool true, t) := by
  rw [pJson.eq_def]; simp

theorem pJson_false (f : Nat) (t : List Char) :
    pJson (f + 1) ('f' :: 'a' :: 'l' :: 's' :: 'e' :: t) = some (.bool false, t) := by
  rw [pJson.eq_def]; simp

theorem pJson_quote (f : Nat) (t : List Char) :
    pJson (f + 1) ('"' :: t) =
      (parseStringBody t).map (fun r => (.str (String.mk r.1), r.2)) := by
  rw [pJson.eq_def]; simp

theorem pJson_arrOpen (f : Nat) (t : List Char) :
    pJson (f + 1) ('[' :: t) = (pElems f t).map (fun r => (.arr r.1, r.2)) := by
  rw [pJson.eq_def]; simp

theorem pJson_objOpen (f : Nat) (t : List Char) :
    pJson (f + 1) ('{' :: t) = (pFields f t).map (fun r => (.obj r.1, r.2)) := by
  rw [pJson.eq_def]; simp

theorem pJson_neg (f : Nat) {d : Char} (t : List Char) (hd : isDigitC d = true) :
    pJson (f + 1) ('-' :: d :: t) =
      some (.num (-(digitsToNat (d :: (takeDigits t).1) : Int)), (takeDigits t).2) := by
  rw [pJson.eq_def]; simp [hd]

theorem pJson_digit (f : Nat) {c : Char} (t : List Char) (hd : isDigitC c = true) :
    pJson (f + 1) (c :: t) =
      some (.num ((digitsToNat (c :: (takeDigits t).1) : Int)), (takeDigits t).2) := by
  obtain ⟨h1, h2, h3, h4, h5, h6, h7, _⟩ := digit_not_special hd
  rw [pJson.eq_def]; simp [h1, h2, h3, h4, h5, h6, h7, hd]

theorem pElems_rb (f : Nat) (t : List Char) :
    pElems (f + 1) (']' :: t) = some ([], t) := by
  rw [pElems.eq_def]; simp

theorem pElems_cons (f : Nat) {c : Char} (t : List Char) (h : c ≠ ']') :
    pElems (f + 1) (c :: t) =
      match pJson f (c :: t) with
      | some (v, ',' :: t') => (pElems f t').map (fun r => (v :: r.1, r.2))
      | some (v, ']' :: t') => some ([v], t')
      | _ => none := by
  rw [pElems.eq_def]; simp [h]

theorem pFields_rb (f : Nat) (t : List Char) :
    pFields (f + 1) ('}' :: t) = some ([], t) := by
  rw [pFields.eq_def]; simp

theorem pFields_quote (f : Nat) (t : List Char) :
    pFields (f + 1) ('"' :: t) =
      match parseStringBody t with
      | some (k, ':' :: t') =>
        match pJson f t' with
        | some (v, ',' :: t'') =>
          (pFields f t'').map (fun r => ((String.mk k, v) :: r.1, r.2))
        | some (v, '}' :: t'') => some ([(String.mk k, v)], t'')
        | _ => none
      | _ => none := by
  rw [pFields.eq_def]; simp

theorem pFields_entry (f : Nat) (k : String) (sep : List Char) :
    pFields (f + 1) (strLit k ++ ':' :: sep) =
      match pJson f sep with
      | some (v, ',' :: t2) => (pFields f t2).map (fun r => ((k, v) :: r.1, r.2))
      | some (v, '}' :: t2) => some ([(k, v)], t2)
      | _ => none := by
  simp only [strLit, List.cons_append, List.append_assoc, List.singleton_append,
    List.nil_append]
  rw [pFields_quote, parseStringBody_escape]
  rfl

theorem rtAll (f : Nat) :
    (∀ v rest, jfuel v ≤ f → notDigitStart rest →
      pJson f (stringifyJson v ++ rest) = some (v, rest))
  ∧ (∀ xs rest, lfuel xs ≤ f →
      pElems f (stringifyArr xs ++ ']' :: rest) = some (xs, rest))
  ∧ (∀ ms rest, ofuel ms ≤ f →
      pFields f (stringifyObj ms ++ '}' :: rest) = some (ms, rest)) := by
  induction f with
  | zero =>
    refine ⟨fun v rest h _ => absurd h (by have := jfuel_pos v; omega),
            fun xs rest h => absurd h (by have := lfuel_pos xs; omega),
            fun ms rest h => absurd h (by have := ofuel_pos ms; omega)⟩
  | succ f ih =>
    obtain ⟨ihS, ihE, ihF⟩ := ih
    refine ⟨?_, ?_, ?_⟩
    · intro v rest hf hr
      cases v with
      | null =>
        simp only [stringifyJson, List.cons_append, List.nil_append]
        exact pJson_null f rest
      | bool b =>
        cases b <;>
          simp only [stringifyJson, List.cons_append, List.nil_append] <;>
          first
          | exact pJson_true f rest
          | exact pJson_false f rest
      | str s =>
        simp only [stringifyJson, strLit, List.cons_append, List.append_assoc,
          List.singleton_append]
        rw [pJson_quote, parseStringBody_escape]
        simp [string_mk_data]
      | num i =>
        obtain ⟨d, ds, hnat, hd, hds, hval⟩ := natToChars_cons i.natAbs
        have htd := takeDigits_append ds rest hds hr
        rcases Int.lt_or_le i 0 with hneg | hpos
        · have hic : intToChars i = '-' :: d :: ds := by
            rw [intToChars, if_pos hneg, hnat]
          simp only [stringifyJson, hic, List.cons_append]
          rw [pJson_neg f _ hd, htd]
          have : -(digitsToNat (d :: ds) : Int) = i := by
            rw [hval]; omega
          simp [this]
        · have hic : intToChars i = d :: ds := by
            rw [intToChars, if_neg (by omega), hnat]
          simp only [stringifyJson, hic, List.cons_append]
          rw [pJson_digit f _ hd, htd]
          have : ((digitsToNat (d :: ds) : Nat) : Int) = i := by
            rw [hval]; omega
          simp [this]
      | arr xs =>
        have hl : lfuel xs ≤ f := by simp only [jfuel] at hf; omega
        have hE := ihE xs rest hl
        simp only [stringifyJson, List.cons_append, List.append_assoc,
          List.singleton_append, List.nil_append]
        rw [pJson_arrOpen, hE]
        rfl
      | obj ms =>
        have hl : ofuel ms ≤ f := by simp only [jfuel] at hf; omega
        have hF := ihF ms rest hl
        simp only [stringifyJson, List.cons_append, List.append_assoc,
          List.singleton_append, List.nil_append]
        rw [pJson_objOpen, hF]
        rfl
    · intro xs rest hl
      cases xs with
      | nil =>
        simp only [stringifyArr, List.nil_append]
        exact pElems_rb f rest
      | cons x t =>
        obtain ⟨c, cs, hv, hc⟩ := stringify_head x
        cases t with
        | nil =>
          have hjx : jfuel x ≤ f := by
            simp only [lfuel] at hl
            have := jfuel_pos x
            omega
          have hS := ihS x (']' :: rest) hjx
            (show isDigitC ']' = false by decide)
          simp only [stringifyArr]
          rw [hv]
          simp only [List.cons_append]
          rw [pElems_cons f _ hc]
          have hback : c :: (cs ++ ']' :: rest) = stringifyJson x ++ ']' :: rest := by
            rw [hv]; simp
          rw [hback, hS]
          rfl
        | cons y t2 =>
          have hjx : jfuel x ≤ f := by
            simp only [lfuel] at hl
            omega
          have hlyt : lfuel (y :: t2) ≤ f := by
            simp only [lfuel] at hl ⊢
            omega
          have hS := ihS x (',' :: (stringifyArr (y :: t2) ++ ']' :: rest)) hjx
            (show isDigitC ',' = false by decide)
          have hE := ihE (y :: t2) rest hlyt
          simp only [stringifyArr]
          rw [hv]
          simp only [List.cons_append, List.append_assoc]
          rw [pElems_cons f _ hc]
          have hback : c :: (cs ++ (',' :: (stringifyArr (y :: t2) ++ ']' :: rest)))
              = stringifyJson x ++ ',' :: (stringifyArr (y :: t2) ++ ']' :: rest) := by
            rw [hv]; simp
          rw [hback, hS]
          simp [hE]
    · intro ms rest hl
      cases ms with
      | nil =>
        simp only [stringifyObj, List.nil_append]
        exact pFields_rb f rest
      | cons p t =>
        obtain ⟨k, x⟩ := p
        cases t with
        | nil =>
          have hjx : jfuel x ≤ f := by
            simp only [ofuel] at hl
            have := jfuel_pos x
            omega
          have hS := ihS x ('}' :: rest) hjx
            (show isDigitC '}' = false by decide)
          simp only [stringifyObj, List.cons_append, List.append_assoc]
          rw [pFields_entry]
          simp [hS]
        | cons q t2 =>
          have hjx : jfuel x ≤ f := by
            simp only [ofuel] at hl
            omega
          have hlyt : ofuel (q :: t2) ≤ f := by
            simp only [ofuel] at hl ⊢
            omega
          have hS := ihS x (',' :: (stringifyObj (q :: t2) ++ '}' :: rest)) hjx
            (show isDigitC ',' = false by decide)
          have hF := ihF (q :: t2) rest hlyt
          simp only [stringifyObj, List.cons_append, List.append_assoc]
          rw [pFields_entry]
          simp [hS, hF]

mutual

theorem jfuel_le : ∀ v : Json, jfuel v ≤ (stringifyJson v).length
  | .null => by simp [jfuel, stringifyJson]
  | .bool b => by cases b <;> simp [jfuel, stringifyJson]
  | .num i => by
    have h := stringify_len_pos (.num i)
    simpa [jfuel] using h
  | .str s => by
    simp only [jfuel, stringifyJson, strLit, List.length_cons]
    omega
  | .arr xs => by
    have h := lfuel_le xs
    simp only [jfuel, stringifyJson, List.length_cons, List.length_append,
      List.length_singleton]
    omega
  | .obj ms => by
    have h := ofuel_le ms
    simp only [jfuel, stringifyJson, List.length_cons, List.length_append,
      List.length_singleton]
    omega

theorem lfuel_le : ∀ xs : List Json, lfuel xs ≤ 1 + (stringifyArr xs).length
  | [] => by simp [lfuel, stringifyArr]
  | [x] => by
    have h1 := jfuel_le x
    have h2 := stringify_len_pos x
    simp only [lfuel, stringifyArr]
    omega
  | x :: y :: t => by
    have h1 := jfuel_le x
    have h2 := lfuel_le (y :: t)
    have h3 := stringify_len_pos x
    simp only [lfuel, stringifyArr, List.length_append, List.length_cons] at h2 ⊢
    omega

theorem ofuel_le : ∀ ms : List (String × Json), ofuel ms ≤ 1 + (stringifyObj ms).length
  | [] => by simp [ofuel, stringifyObj]
  | [(k, x)] => by
    have h1 := jfuel_le x
    have h2 := stringify_len_pos x
    simp only [ofuel, stringifyObj, List.length_append, List.length_cons]
    omega
  | (k, x) :: q :: t => by
    have h1 := jfuel_le x
    have h2 := ofuel_le (q :: t)
    have h3 := stringify_len_pos x
    simp only [ofuel, stringifyObj, List.length_append, List.length_cons] at h2 ⊢
    omega

end

theorem parse_stringifyJson (v : Json) :
    parseJsonStr (String.mk (stringifyJson v)) = some v := by
  have hb : jfuel v ≤ (stringifyJson v).length + 1 := by
    have := jfuel_le v
    omega
  have h := (rtAll ((stringifyJson v).length + 1)).1 v [] hb trivial
  rw [List.append_nil] at h
  simp [parseJsonStr, h]

/-! ## Payload codec (`compression-utils.js`)

`compressPayload` is `JSON.stringify` followed by pako `deflate` and
`btoa`; `decompressPayload` is the exact inverse chain.  The external
deflate plus base64 pipeline is abstracted as an encoder `enc` with
decoder `dec`; the library contract `dec (enc s) = some s` enters the
theorems as a hypothesis, and `dec blob = none` models `atob`/`inflate`
throwing on a corrupt stream. -/

def compressPayload (enc : String → String) (payload : Json) : String :=
  enc (String.mk (stringifyJson payload))

def decompressPayload (dec : String → Option String) (blob : String) :
    Option Json :=
  (dec blob).bind parseJsonStr

def MAX_URL_LENGTH : Nat := 2000

def isUrlSafe (url : String) : Bool := url.length ≤ MAX_URL_LENGTH

/-- `encodeInviteUrl`: `none` models the thrown `EncodingError`
(message: Invite URL is too long). -/
def encodeInviteUrl (enc : String → String) (base : String)
    (connectionId : String) (payload : Json) : Option String :=
  let url := base ++ "#offer=" ++ connectionId ++ ":" ++
    compressPayload enc payload
  if isUrlSafe url then some url else none

def createAnswerBlob (enc : String → String) (answerPayload : Json) : String :=
  compressPayload enc answerPayload

def parseAnswerBlob (dec : String → Option String) (blob : String) :
    Option Json :=
  decompressPayload dec blob

theorem decompress_compress (enc : String → String)
    (dec : String → Option String) (hinv : ∀ s, dec (enc s) = some s)
    (v : Json) : decompressPayload dec (compressPayload enc v) = some v := by
  simp [decompressPayload, compressPayload, hinv, parse_stringifyJson]

/-! ### Valid payloads

`validJson` marks the payloads on which the printer model coincides with
`JSON.stringify`: every string consists of characters the real
serializer emits unescaped or with the modelled two-character escapes
(no control characters below 0x20). -/

def validStr (s : String) : Bool := s.data.all (fun c => 32 ≤ c.toNat)

mutual

def validJson : Json → Bool
  | .null => true
  | .bool _ => true
  | .num _ => true
  | .str s => validStr s
  | .arr xs => validArr xs
  | .obj ms => validObj ms

def validArr : List Json → Bool
  | [] => true
  | x :: t => validJson x && validArr t

def validObj : List (String × Json) → Bool
  | [] => true
  | (k, v) :: t => validStr k && (validJson v && validObj t)

end

/-- The signaling payload envelope (data model §3; field names and order
as built by `createOffer` / `processInvite`). -/
structure SignalingPayload where
  version : Int
  ptype : String
  peerId : String
  nickname : String
  timestamp : Int
  sdp : Json
  ice : List Json
  connectionId : Option String
  metadata : Json

/-- The JS object literal the payload becomes (the `connectionId`
property is present exactly on answers). -/
def SignalingPayload.toJson (p : SignalingPayload) : Json :=
  .obj ([("version", .num p.version), ("type", .str p.ptype),
         ("peerId", .str p.peerId), ("nickname", .str p.nickname),
         ("timestamp", .num p.timestamp), ("sdp", p.sdp),
         ("ice", .arr p.ice)]
    ++ (match p.connectionId with
        | some cid => [("connectionId", .str cid)]
        | none => [])
    ++ [("metadata", p.metadata)])

/-! ## Registry state (`state-manager.js`)

JS `setTimeout` returns an id for a scheduled callback and
`clearTimeout` cancels it: timers are modelled as a list of scheduled
records, and a timeout can fire only while its record is still scheduled
and its deadline has been reached (single-threaded event-loop step). -/

structure PendingEntry where
  pc : Nat
  ptype : String
  timeoutId : Nat
  createdAt : Nat
deriving DecidableEq

structure TimerRec where
  id : Nat
  fireAt : Nat
  conn : String
deriving DecidableEq

structure LocalMedia where
  isSharing : Bool
  track : Option Nat
deriving DecidableEq

/-- Remote media entry: a JS object whose properties may be absent
(`none` models an absent, undefined or null property). -/
structure RemoteMedia where
  isMuted : Option Bool
  track : Option Nat
  audioElement : Option Nat
deriving DecidableEq

/-- JS object spread merge: properties present in `upd` overwrite `cur`,
absent ones keep the current value. -/
def mergeRemote (cur upd : RemoteMedia) : RemoteMedia :=
  ⟨(upd.isMuted).orElse (fun _ => cur.isMuted),
   (upd.track).orElse (fun _ => cur.track),
   (upd.audioElement).orElse (fun _ => cur.audioElement)⟩

/-- Peer metadata entry (the values are copied straight from the decoded
payload, so they stay as JSON). -/
structure PeerMeta where
  nickname : Option Json
  position : Option Json
  connectionId : String
  joinedAt : Nat
deriving DecidableEq

/-- The StateManager singleton plus the observable transport-side state:
`closedSessions` records every `pc.close()` call in order and `senders`
tracks the outbound audio tracks attached per session. -/
structure SM where
  connections : List (String × Nat)
  pendingConnections : List (String × PendingEntry)
  localMediaState : List (String × LocalMedia)
  remoteMediaState : List (String × RemoteMedia)
  peerMetadata : List (String × PeerMeta)
  localPeerId : String
  localNickname : String
  localStream : Option Nat
  timers : List TimerRec
  nextTimerId : Nat
  now : Nat
  closedSessions : List Nat
  senders : List (Nat × List Nat)
deriving DecidableEq

def initSM (pid nick : String) : SM :=
  ⟨[], [], [], [], [], pid, nick, none, [], 0, 0, [], []⟩

/-- `pc.close()` — browser transport call, recorded for resource-leak
reasoning. -/
def pcClose (pc : Nat) (s : SM) : SM :=
  { s with closedSessions := s.closedSessions ++ [pc] }

/-- `addConnection` (state-manager.js lines 133-149): store the
connection, the metadata with `joinedAt`, and freshly initialized local
and remote media entries. -/
def addConnection (peerId : String) (connection : Nat)
    (nickname position : Option Json) (connectionId : String) (s : SM) : SM :=
  { s with
    connections := aset peerId connection s.connections,
    peerMetadata :=
      aset peerId ⟨nickname, position, connectionId, s.now⟩ s.peerMetadata,
    localMediaState := aset peerId ⟨false, none⟩ s.localMediaState,
    remoteMediaState :=
      aset peerId ⟨some false, none, none⟩ s.remoteMediaState }

/-- `removeConnection` (lines 155-178): close the transport session when
present and drop all four registry entries. -/
def removeConnection (peerId : String) (s : SM) : SM :=
  let s1 :=
    match alookup peerId s.connections with
    | some c => { (pcClose c s) with connections := aerase peerId s.connections }
    | none => s
  { s1 with
    localMediaState := aerase peerId s1.localMediaState,
    remoteMediaState := aerase peerId s1.remoteMediaState,
    peerMetadata := aerase peerId s1.peerMetadata }

/-- `addPendingConnection` (lines 202-213): arm an expiry timeout and
overwrite the registry entry.  A previous entry's timer is not
cancelled. -/
def addPendingConnection (connectionId : String) (pc : Nat) (ptype : String)
    (timeout : Nat) (s : SM) : SM :=
  { s with
    timers := s.timers ++ [⟨s.nextTimerId, s.now + timeout, connectionId⟩],
    nextTimerId := s.nextTimerId + 1,
    pendingConnections :=
      aset connectionId ⟨pc, ptype, s.nextTimerId, s.now⟩ s.pendingConnections }

/-- `getPendingConnection` (lines 220-228): take semantics — cancel the
entry's timeout, delete the entry and hand it to the caller. -/
def getPendingConnection (connectionId : String) (s : SM) :
    Option PendingEntry × SM :=
  match alookup connectionId s.pendingConnections with
  | some pending =>
    (some pending,
     { s with
       timers := s.timers.filter (fun t => t.id != pending.timeoutId),
       pendingConnections := aerase connectionId s.pendingConnections })
  | none => (none, s)

/-- `removePendingConnection` (lines 234-241), also the expiry callback:
cancel the current entry's timeout, close its session, delete it. -/
def removePendingConnection (connectionId : String) (s : SM) : SM :=
  match alookup connectionId s.pendingConnections with
  | some pending =>
    { s with
      timers := s.timers.filter (fun t => t.id != pending.timeoutId),
      closedSessions := s.closedSessions ++ [pending.pc],
      pendingConnections := aerase connectionId s.pendingConnections }
  | none => s

/-- Event-loop step: a scheduled timeout whose deadline has been reached
fires and runs its callback `removePendingConnection`; a cancelled or
unscheduled timeout never fires. -/
def fireTimer (tid : Nat) (s : SM) : SM :=
  match s.timers.find? (fun t => t.id == tid) with
  | some t =>
    if t.fireAt ≤ s.now then
      removePendingConnection t.conn
        { s with timers := s.timers.filter (fun u => u.id != tid) }
    else s
  | none => s

/-- `updateLocalMediaState` (lines 249-252): total overwrite. -/
def updateLocalMediaState (peerId : String) (isSharing : Bool)
    (track : Option Nat) (s : SM) : SM :=
  { s with localMediaState := aset peerId ⟨isSharing, track⟩ s.localMediaState }

/-- `updateRemoteMediaState` (lines 259-263): spread-merge the partial
update into the current entry, or into an empty object when the peer has
none — the entry is created even for unknown peers. -/
def updateRemoteMediaState (peerId : String) (upd : RemoteMedia) (s : SM) : SM :=
  let cur := (alookup peerId s.remoteMediaState).getD ⟨none, none, none⟩
  { s with remoteMediaState := aset peerId (mergeRemote cur upd) s.remoteMediaState }

/-- `updatePeerPosition` (lines 185-193): update only an existing entry. -/
def updatePeerPosition (peerId : String) (position : Json) (s : SM) : SM :=
  match alookup peerId s.peerMetadata with
  | some m =>
    { s with
      peerMetadata :=
        aset peerId { m with position := some position } s.peerMetadata }
  | none => s

/-- `getLocalStream` (lines 269-285): reuse the acquired stream or
acquire one; `gum` is the outcome `getUserMedia` supplies (`none` models
rejection — no permission, no track). -/
def getLocalStream (gum : Option Nat) (s : SM) : Option (Nat × SM) :=
  match s.localStream with
  | some t => some (t, s)
  | none =>
    match gum with
    | some t => some (t, { s with localStream := some t })
    | none => none

/-! ## Negotiation engine and media gate (`webrtc-manager.js`)

The thrown `Error` messages map onto an error enumeration; a JS
exception propagates as `.error` while the mutations made before the
throw remain in the state. -/

inductive WErr where
  | encodingError
  | decodingError
  | invalidInviteType
  | noPendingOffer
  | invalidAnswer
  | noConnection
  | mediaFailure
  | typeError
deriving DecidableEq

/-- JS property access (undefined when absent or when the receiver is
not an object). -/
def jGet : Json → String → Option Json
  | .obj ms, k => alookup k ms
  | _, _ => none

/-- JS property access coerced to a string key, with a default standing
for the undefined value. -/
def jGetStrD (p : Json) (k : String) (d : String) : String :=
  match jGet p k with
  | some (.str s) => s
  | _ => d

/-- The offer payload object built in `createOffer` (lines 101-113);
the session description and the gathered candidates come from the
transport layer. -/
def offerPayload (s : SM) (sdp : Json) (ice : List Json) : Json :=
  .obj [("version", .num 1), ("type", .str "offer"),
        ("peerId", .str s.localPeerId), ("nickname", .str s.localNickname),
        ("timestamp", .num s.now), ("sdp", sdp), ("ice", .arr ice),
        ("metadata",
         .obj [("position", .obj [("x", .num 0), ("y", .num 0)]),
               ("capabilities", .arr [.str "audio", .str "data"])])]

/-- `createOffer` (webrtc-manager.js lines 87-127).  The transport steps
(createPeerConnection, createOffer, setLocalDescription, candidate
gathering) are external; their outcomes enter as `pcId`, `sdp`, `ice`.
Source order: the pending entry is registered before `encodeInviteUrl`
runs, and the catch block closes the session and rethrows. -/
def createOffer (enc : String → String) (base : String) (pcId : Nat)
    (sdp : Json) (ice : List Json) (connectionId : String) (s : SM) :
    Except WErr String × SM :=
  let payload := offerPayload s sdp ice
  let s1 := addPendingConnection connectionId pcId "offer" 60000 s
  match encodeInviteUrl enc base connectionId payload with
  | some url => (.ok url, s1)
  | none => (.error .encodingError, pcClose pcId s1)

/-- `completeConnection` (lines 196-230).  The pending entry is taken
before any validation; `setRemoteDescription` and `addIceCandidate` are
external transport calls assumed to succeed here. -/
def completeConnection (dec : String → Option String) (connectionId : String)
    (answerBlob : String) (s : SM) : Except WErr Unit × SM :=
  match getPendingConnection connectionId s with
  | (none, s1) => (.error .noPendingOffer, s1)
  | (some pending, s1) =>
    if pending.ptype ≠ "offer" then (.error .noPendingOffer, s1)
    else
      match parseAnswerBlob dec answerBlob with
      | none => (.error .decodingError, pcClose pending.pc s1)
      | some ap =>
        if jGet ap "type" ≠ some (.str "answer")
            ∨ jGet ap "connectionId" ≠ some (.str connectionId) then
          (.error .invalidAnswer, pcClose pending.pc s1)
        else
          match jGet ap "metadata" with
          | none => (.error .typeError, pcClose pending.pc s1)
          | some md =>
            (.ok (),
             addConnection (jGetStrD ap "peerId" "undefined") pending.pc
               (jGet ap "nickname") (jGet md "position") connectionId s1)

/-- `connection.addTrack(audioTrack, stream)`: one more outbound sender
on the session. -/
def addSender (conn track : Nat) (s : SM) : SM :=
  { s with
    senders :=
      aset conn (((alookup conn s.senders).getD []) ++ [track]) s.senders }

/-- The early-return check of `startSharingAudio` (lines 279-283):
already sharing when the local media entry exists with isSharing. -/
def isAlreadySharing (peerId : String) (s : SM) : Bool :=
  match alookup peerId s.localMediaState with
  | some lm => lm.isSharing
  | none => false

/-- `startSharingAudio` (lines 263-296): requires a connection, acquires
or reuses the capture stream, early-returns when already sharing,
otherwise attaches the audio track (`connection.addTrack`) and flips the
sharing state. -/
def startSharingAudio (gum : Option Nat) (peerId : String) (s : SM) :
    Except WErr Unit × SM :=
  match alookup peerId s.connections with
  | none => (.error .noConnection, s)
  | some conn =>
    match getLocalStream gum s with
    | none => (.error .mediaFailure, s)
    | some (track, s1) =>
      if isAlreadySharing peerId s1 then (.ok (), s1)
      else (.ok (), updateLocalMediaState peerId true (some track)
        (addSender conn track s1))

/-- `stopSharingAudio` (lines 302-326): silent early return on an
unknown peer; removes the first live audio sender when present; the
catch block swallows errors, so the call never rejects. -/
def stopSharingAudio (peerId : String) (s : SM) : Except WErr Unit × SM :=
  match alookup peerId s.connections with
  | none => (.ok (), s)
  | some conn =>
    let sends := (alookup conn s.senders).getD []
    let s1 :=
      match sends with
      | [] => s
      | _ :: t => { s with senders := aset conn t s.senders }
    (.ok (), updateLocalMediaState peerId false none s1)

/-- `toggleRemoteMute` (lines 333-337): no existence check; the spatial
audio manager's `setPeerMuted` is a render-side effect on an audio
element outside the registry, and the registry update merges only the
`isMuted` property. -/
def toggleRemoteMute (peerId : String) (muted : Bool) (s : SM) : SM :=
  updateRemoteMediaState peerId ⟨some muted, none, none⟩ s

/-- Containment invariant of the registry maps (claim C10). -/
def RegInv (s : SM) : Prop :=
  ∀ p, alookup p s.connections ≠ none →
    alookup p s.localMediaState ≠ none ∧
    alookup p s.remoteMediaState ≠ none ∧
    alookup p s.peerMetadata ≠ none

/-! ## Claims -/

def samplePayload : SignalingPayload :=
  ⟨1, "offer", "peer-a", "Alice", 1700000000000,
   .obj [("sdpType", .str "offer"), ("sdp", .str "v=0")], [], none,
   .obj [("position", .obj [("x", .num 0), ("y", .num 0)]),
         ("capabilities", .arr [.str "audio", .str "data"])]⟩

/-- C5: for every valid SignalingPayload P — empty candidate lists and
absent optional fields included — decoding the encoded token recovers P
field for field, assuming the external deflate/base64 pipeline honours
its inverse contract.  Validity restricts strings to the
control-character-free range on which the serializer model coincides
with `JSON.stringify`. -/
theorem c5_decode_encode (enc : String → String) (dec : String → Option String)
    (hinv : ∀ s, dec (enc s) = some s) (P : SignalingPayload)
    (hvalid : validJson P.toJson = true) :
    decompressPayload dec (compressPayload enc P.toJson) = some P.toJson :=
  decompress_compress enc dec hinv P.toJson

theorem c5_decode_encode_witness :
    (∀ s : String, some s = some s)
    ∧ validJson samplePayload.toJson = true
    ∧ decompressPayload some (compressPayload id samplePayload.toJson)
        = some samplePayload.toJson :=
  ⟨fun _ => rfl, by decide,
   c5_decode_encode id some (fun _ => rfl) samplePayload (by decide)⟩

def unknownKindPayload : Json :=
  .obj [("version", .num 99), ("type", .str "frobnicate")]

/-- C2 counterexample: a well-formed token carrying an unrecognized
version (99) and an unknown kind decodes successfully — there is no
VersionError path and no kind or required-field validation, so decode
does succeed on such inputs, contrary to the claim. -/
theorem c2_counterexample :
    decompressPayload some (compressPayload id unknownKindPayload)
      = some unknownKindPayload := by decide

/-- C2 amended: decode fails (with the decoding error) exactly on
undecodable input — a corrupt compression stream or unparseable JSON —
and performs no version, kind or required-field validation: every
well-formed token decodes, whatever its version and kind; no
VersionError exists. -/
theorem c2_amended (enc : String → String) (dec : String → Option String)
    (hinv : ∀ s, dec (enc s) = some s) :
    (∀ blob, dec blob = none → decompressPayload dec blob = none)
    ∧ (∀ blob s, dec blob = some s → parseJsonStr s = none →
        decompressPayload dec blob = none)
    ∧ (∀ ver knd, decompressPayload dec
        (compressPayload enc (.obj [("version", .num ver), ("type", .str knd)]))
        = some (.obj [("version", .num ver), ("type", .str knd)])) := by
  refine ⟨?_, ?_, ?_⟩
  · intro blob h
    simp [decompressPayload, h]
  · intro blob str h1 h2
    simp [decompressPayload, h1, h2]
  · intro ver knd
    exact decompress_compress enc dec hinv _

theorem c2_amended_witness :
    (∀ s : String, some s = some s)
    ∧ decompressPayload some
        (compressPayload id (.obj [("version", .num 5), ("type", .str "mystery")]))
        = some (.obj [("version", .num 5), ("type", .str "mystery")]) :=
  ⟨fun _ => rfl, (c2_amended id some (fun _ => rfl)).2.2 5 "mystery"⟩

/-- A deflate+base64 outcome of 2001 characters: together with the url
prefix this exceeds the 2000-character budget. -/
def bigBlobC1 : String := String.mk (List.replicate 2001 'x')

theorem bigBlobC1_length : bigBlobC1.length = 2001 := by
  show (List.replicate 2001 'x').length = 2001
  rw [List.length_replicate]

theorem c1_encode_fails :
    encodeInviteUrl (fun _ => bigBlobC1) "https://app.example" "abc"
      (offerPayload (initSM "peer-a" "Alice") .null []) = none := by
  have hblob : (compressPayload (fun _ => bigBlobC1)
      (offerPayload (initSM "peer-a" "Alice") .null [])).length = 2001 :=
    bigBlobC1_length
  have h5 : ("https://app.example#offer=abc:" : String).length = 30 := by decide
  rw [encodeInviteUrl]
  have hsafe : isUrlSafe ("https://app.example#offer=abc:" ++
      compressPayload (fun _ => bigBlobC1)
        (offerPayload (initSM "peer-a" "Alice") .null [])) = false := by
    simp [isUrlSafe, MAX_URL_LENGTH, hblob, h5]
  simp [hsafe]

/-- C1 (code bug): an offer whose encoded invite link exceeds the
2000-character budget fails with the encoding error, but the
PendingNegotiation registered one step earlier survives the failure
together with its armed 60-second expiry timer — only the session is
closed.  The claim (and spec sections 4.3, 7 and 8) require that no
PendingNegotiation stays registered and no timer is left running. -/
theorem c1_pending_survives_encoding_error :
    (createOffer (fun _ => bigBlobC1) "https://app.example" 7 .null [] "abc"
        (initSM "peer-a" "Alice")).1 = .error .encodingError
    ∧ alookup "abc" (createOffer (fun _ => bigBlobC1) "https://app.example" 7
        .null [] "abc" (initSM "peer-a" "Alice")).2.pendingConnections
        = some ⟨7, "offer", 0, 0⟩
    ∧ (createOffer (fun _ => bigBlobC1) "https://app.example" 7 .null [] "abc"
        (initSM "peer-a" "Alice")).2.timers = [⟨0, 60000, "abc"⟩]
    ∧ (createOffer (fun _ => bigBlobC1) "https://app.example" 7 .null [] "abc"
        (initSM "peer-a" "Alice")).2.closedSessions = [7] := by
  rw [createOffer]
  rw [c1_encode_fails]
  refine ⟨rfl, ?_, ?_, ?_⟩
  · rw [show alookup "abc" (pcClose 7 (addPendingConnection "abc" 7 "offer" 60000
        (initSM "peer-a" "Alice"))).pendingConnections
      = alookup "abc" (aset "abc" ⟨7, "offer", 0, 0⟩ []) from rfl]
    rw [alookup_aset_self]
  · rfl
  · rfl

/-- C3: when the pending negotiation exists as an offer and the answer
token decodes to a payload whose kind is not Answer or whose embedded
connectionToken differs from the one supplied, completeConnection fails
with the protocol error and the PendingNegotiation has already been
consumed: a subsequent takePending with the same token returns none. -/
theorem c3_mismatch_consumes (dec : String → Option String) (cid blob : String)
    (s : SM) (pending : PendingEntry) (ap : Json)
    (hp : alookup cid s.pendingConnections = some pending)
    (hty : pending.ptype = "offer")
    (hdec : parseAnswerBlob dec blob = some ap)
    (hbad : jGet ap "type" ≠ some (.str "answer")
            ∨ jGet ap "connectionId" ≠ some (.str cid)) :
    (completeConnection dec cid blob s).1 = .error .invalidAnswer
    ∧ (getPendingConnection cid (completeConnection dec cid blob s).2).1 = none := by
  have hg : getPendingConnection cid s = (some pending,
      { s with
        timers := s.timers.filter (fun t => t.id != pending.timeoutId),
        pendingConnections := aerase cid s.pendingConnections }) := by
    rw [getPendingConnection, hp]
  have hcc : completeConnection dec cid blob s
      = (.error .invalidAnswer, pcClose pending.pc
          { s with
            timers := s.timers.filter (fun t => t.id != pending.timeoutId),
            pendingConnections := aerase cid s.pendingConnections }) := by
    rw [completeConnection, hg]
    simp only [hty, ne_eq, not_true_eq_false, if_false, hdec, if_pos hbad]
  rw [hcc]
  refine ⟨rfl, ?_⟩
  have hnone : alookup cid (pcClose pending.pc
      { s with
        timers := s.timers.filter (fun t => t.id != pending.timeoutId),
        pendingConnections := aerase cid s.pendingConnections }).pendingConnections
      = none := alookup_aerase_self cid s.pendingConnections
  rw [getPendingConnection, hnone]

theorem c3_mismatch_consumes_witness :
    alookup "abc" (addPendingConnection "abc" 7 "offer" 60000
        (initSM "p" "n")).pendingConnections = some ⟨7, "offer", 0, 0⟩
    ∧ (completeConnection (fun _ => some "null") "abc" "blob"
        (addPendingConnection "abc" 7 "offer" 60000 (initSM "p" "n"))).1
        = .error .invalidAnswer
    ∧ (getPendingConnection "abc" (completeConnection (fun _ => some "null")
        "abc" "blob" (addPendingConnection "abc" 7 "offer" 60000
          (initSM "p" "n"))).2).1 = none := by
  refine ⟨by decide, ?_⟩
  exact c3_mismatch_consumes (fun _ => some "null") "abc" "blob" _
    ⟨7, "offer", 0, 0⟩ .null (by decide) rfl (by decide) (Or.inl (by decide))

theorem getPending_after_add (tok : String) (pc : Nat) (ty : String)
    (timeout : Nat) (s0 : SM) :
    getPendingConnection tok (addPendingConnection tok pc ty timeout s0)
      = (some ⟨pc, ty, s0.nextTimerId, s0.now⟩,
         { s0 with
           timers := (s0.timers ++
               [(⟨s0.nextTimerId, s0.now + timeout, tok⟩ : TimerRec)]).filter
             (fun t => t.id != s0.nextTimerId),
           nextTimerId := s0.nextTimerId + 1,
           pendingConnections :=
             aerase tok (aset tok ⟨pc, ty, s0.nextTimerId, s0.now⟩
               s0.pendingConnections) }) := by
  have hlook : alookup tok
      (addPendingConnection tok pc ty timeout s0).pendingConnections
      = some ⟨pc, ty, s0.nextTimerId, s0.now⟩ := alookup_aset_self _ _ _
  rw [getPendingConnection, hlook]
  rfl

theorem filter_fresh_append (ts : List TimerRec) (fa : Nat) (cn : String)
    (n : Nat) (hfresh : ∀ t ∈ ts, t.id ≠ n) :
    (ts ++ [(⟨n, fa, cn⟩ : TimerRec)]).filter (fun t => t.id != n) = ts := by
  rw [List.filter_append]
  have h1 : ts.filter (fun t => t.id != n) = ts :=
    List.filter_eq_self.mpr (fun t ht => by simp [hfresh t ht])
  have h2 : ([(⟨n, fa, cn⟩ : TimerRec)]).filter (fun t => t.id != n) = [] := by
    simp
  rw [h1, h2, List.append_nil]

/-- C4: takePending is the single arbitration point between completion
and expiry: after addPending the first takePending returns the entry and
disarms its expiry timer, every subsequent call with the same token
returns none, the disarmed timeout can never fire (at any later clock),
and no close of the underlying session happens along the way — in
particular the session is never closed twice. -/
theorem c4_take_arbitration (tok : String) (pc : Nat) (ty : String)
    (timeout : Nat) (s0 : SM)
    (hfresh : ∀ t ∈ s0.timers, t.id ≠ s0.nextTimerId) :
    (getPendingConnection tok (addPendingConnection tok pc ty timeout s0)).1
        = some ⟨pc, ty, s0.nextTimerId, s0.now⟩
    ∧ (getPendingConnection tok
        (getPendingConnection tok (addPendingConnection tok pc ty timeout s0)).2).1
        = none
    ∧ (getPendingConnection tok (addPendingConnection tok pc ty timeout s0)).2.timers
        = s0.timers
    ∧ (∀ T, fireTimer s0.nextTimerId
        { (getPendingConnection tok (addPendingConnection tok pc ty timeout s0)).2
          with now := T }
        = { (getPendingConnection tok (addPendingConnection tok pc ty timeout s0)).2
          with now := T })
    ∧ (getPendingConnection tok
        (addPendingConnection tok pc ty timeout s0)).2.closedSessions
        = s0.closedSessions
    ∧ removePendingConnection tok
        (getPendingConnection tok (addPendingConnection tok pc ty timeout s0)).2
        = (getPendingConnection tok (addPendingConnection tok pc ty timeout s0)).2 := by
  rw [getPending_after_add]
  have hfilter := filter_fresh_append s0.timers (s0.now + timeout) tok
    s0.nextTimerId hfresh
  have hnone : alookup tok
      (aerase tok (aset tok (⟨pc, ty, s0.nextTimerId, s0.now⟩ : PendingEntry)
        s0.pendingConnections)) = none := alookup_aerase_self _ _
  refine ⟨rfl, ?_, ?_, ?_, rfl, ?_⟩
  · rw [getPendingConnection, hnone]
  · exact hfilter
  · intro T
    have hfind : (((s0.timers ++
        [(⟨s0.nextTimerId, s0.now + timeout, tok⟩ : TimerRec)]).filter
        (fun t => t.id != s0.nextTimerId)).find?
          (fun t => t.id == s0.nextTimerId)) = none := by
      rw [hfilter]
      exact List.find?_eq_none.mpr (fun t ht => by simp [hfresh t ht])
    rw [fireTimer, hfind]
  · rw [removePendingConnection, hnone]

theorem c4_take_arbitration_witness :
    (∀ t ∈ (initSM "a" "b").timers, t.id ≠ (initSM "a" "b").nextTimerId)
    ∧ (getPendingConnection "t" (addPendingConnection "t" 3 "offer" 60000
        (initSM "a" "b"))).1 = some ⟨3, "offer", 0, 0⟩
    ∧ (getPendingConnection "t" (getPendingConnection "t"
        (addPendingConnection "t" 3 "offer" 60000 (initSM "a" "b"))).2).1 = none
    ∧ (getPendingConnection "t" (addPendingConnection "t" 3 "offer" 60000
        (initSM "a" "b"))).2.timers = (initSM "a" "b").timers :=
  ⟨fun t ht => absurd ht (List.not_mem_nil t),
   (c4_take_arbitration "t" 3 "offer" 60000 (initSM "a" "b")
     (fun t ht => absurd ht (List.not_mem_nil t))).1,
   (c4_take_arbitration "t" 3 "offer" 60000 (initSM "a" "b")
     (fun t ht => absurd ht (List.not_mem_nil t))).2.1,
   (c4_take_arbitration "t" 3 "offer" 60000 (initSM "a" "b")
     (fun t ht => absurd ht (List.not_mem_nil t))).2.2.1⟩

/-- C6 counterexample: registering an established connection under a
peerId already present is not rejected — the second `addConnection`
silently replaces the stored connection (1 becomes 2); no collision
error exists, `addConnection` cannot fail. -/
theorem c6_counterexample :
    alookup "p" (addConnection "p" 2 none none "c2" (addConnection "p" 1 none
      none "c1" (initSM "me" "nick"))).connections = some 2
    ∧ alookup "p" (addConnection "p" 1 none none "c1"
        (initSM "me" "nick")).connections = some 1 := by
  constructor
  · exact alookup_aset_self _ _ _
  · exact alookup_aset_self _ _ _

/-- C6 amended: registering a new established PeerConnection under a
peerId that already has one replaces the stored entry and reinitializes
the peer's media state, without any collision error (the operation has
no failure channel at all). -/
theorem c6_amended (s : SM) (p : String) (c c0 : Nat)
    (nick pos : Option Json) (cid : String)
    (h : alookup p s.connections = some c0) :
    alookup p (addConnection p c nick pos cid s).connections = some c
    ∧ alookup p (addConnection p c nick pos cid s).localMediaState
        = some ⟨false, none⟩
    ∧ alookup p (addConnection p c nick pos cid s).remoteMediaState
        = some ⟨some false, none, none⟩ :=
  ⟨alookup_aset_self _ _ _, alookup_aset_self _ _ _, alookup_aset_self _ _ _⟩

theorem c6_amended_witness :
    alookup "p" (addConnection "p" 1 none none "c1"
      (initSM "me" "nick")).connections = some 1
    ∧ alookup "p" (addConnection "p" 2 none none "c2" (addConnection "p" 1 none
        none "c1" (initSM "me" "nick"))).connections = some 2 :=
  ⟨alookup_aset_self _ _ _,
   (c6_amended (addConnection "p" 1 none none "c1" (initSM "me" "nick")) "p"
     2 1 none none "c2" (alookup_aset_self _ _ _)).1⟩

/-- C7 counterexample: `stopSharing` on a peerId with no established
connection returns successfully without touching the state — it does not
fail with NoSuchPeerError as the claim requires for all three media-gate
operations. -/
theorem c7_counterexample :
    stopSharingAudio "ghost" (initSM "me" "nick") = (.ok (), initSM "me" "nick")
    := rfl

/-- C7 amended: on a peerId with no established connection, only
`startSharing` fails with NoSuchPeerError; `stopSharing` silently
returns leaving the state unchanged; and `setRemoteMuted` performs its
update unconditionally, creating a remote-media entry carrying the mute
flag even for the unknown peer. -/
theorem c7_amended (gum : Option Nat) (p : String) (m : Bool) (s : SM)
    (h : alookup p s.connections = none) :
    startSharingAudio gum p s = (.error .noConnection, s)
    ∧ stopSharingAudio p s = (.ok (), s)
    ∧ (alookup p (toggleRemoteMute p m s).remoteMediaState).map
        (fun r => r.isMuted) = some (some m) := by
  refine ⟨?_, ?_, ?_⟩
  · rw [startSharingAudio, h]
  · rw [stopSharingAudio, h]
  · rw [toggleRemoteMute, updateRemoteMediaState]
    rw [alookup_aset_self]
    rfl

theorem c7_amended_witness :
    alookup "ghost" (initSM "me" "nick").connections = none
    ∧ startSharingAudio none "ghost" (initSM "me" "nick")
        = (.error .noConnection, initSM "me" "nick")
    ∧ (alookup "ghost" (toggleRemoteMute "ghost" true
        (initSM "me" "nick")).remoteMediaState).map (fun r => r.isMuted)
        = some (some true) :=
  ⟨rfl,
   (c7_amended none "ghost" true (initSM "me" "nick") rfl).1,
   (c7_amended none "ghost" true (initSM "me" "nick") rfl).2.2⟩

theorem getLocalStream_fields (gum : Option Nat) (s : SM) (track : Nat)
    (s1 : SM) (h : getLocalStream gum s = some (track, s1)) :
    s1.connections = s.connections ∧ s1.localMediaState = s.localMediaState
    ∧ s1.senders = s.senders ∧ s1.localStream = some track := by
  rw [getLocalStream.eq_def] at h
  cases hs : s.localStream with
  | some t =>
    rw [hs] at h
    simp only [Option.some.injEq, Prod.mk.injEq] at h
    obtain ⟨h1, h2⟩ := h
    subst h1
    subst h2
    exact ⟨rfl, rfl, rfl, hs⟩
  | none =>
    rw [hs] at h
    cases hg : gum with
    | some g =>
      rw [hg] at h
      simp only [Option.some.injEq, Prod.mk.injEq] at h
      obtain ⟨h1, h2⟩ := h
      subst h1
      subst h2
      exact ⟨rfl, rfl, rfl, rfl⟩
    | none =>
      rw [hg] at h
      exact absurd h (by simp)

/-- C8: startSharing is idempotent: for a connected peer that is not
already sharing, the first call succeeds and attaches exactly one
outbound audio track to that connection; the second call completes
without error and changes nothing — the resulting state (attached
senders included) is exactly the state after the first call. -/
theorem c8_idempotent (gum : Option Nat) (p : String) (conn track : Nat)
    (s s1 : SM)
    (hc : alookup p s.connections = some conn)
    (hg : getLocalStream gum s = some (track, s1))
    (hns : (alookup p s.localMediaState).map (fun lm => lm.isSharing)
      ≠ some true) :
    (startSharingAudio gum p s).1 = .ok ()
    ∧ (alookup conn (startSharingAudio gum p s).2.senders).getD []
        = ((alookup conn s.senders).getD []) ++ [track]
    ∧ alookup p (startSharingAudio gum p s).2.localMediaState
        = some ⟨true, some track⟩
    ∧ startSharingAudio gum p (startSharingAudio gum p s).2
        = (.ok (), (startSharingAudio gum p s).2) := by
  obtain ⟨e1, e2, e3, e4⟩ := getLocalStream_fields gum s track s1 hg
  have hns1 : alookup p s1.localMediaState = none
      ∨ ∃ lm, alookup p s1.localMediaState = some lm ∧ lm.isSharing = false := by
    rw [e2]
    cases hl : alookup p s.localMediaState with
    | none => exact Or.inl rfl
    | some lm =>
      rw [hl] at hns
      refine Or.inr ⟨lm, rfl, ?_⟩
      cases hb : lm.isSharing with
      | true => exact absurd (by simp [hb]) hns
      | false => rfl
  have halready : isAlreadySharing p s1 = false := by
    rw [isAlreadySharing.eq_def]
    rcases hns1 with hl | ⟨lm, hl, hb⟩
    · rw [hl]
    · rw [hl]
      simp [hb]
  have hfirst : startSharingAudio gum p s
      = (.ok (), updateLocalMediaState p true (some track)
          (addSender conn track s1)) := by
    rw [startSharingAudio, hc, hg]
    simp only [halready, Bool.false_eq_true, if_false]
  rw [hfirst]
  have hsend : (updateLocalMediaState p true (some track)
        (addSender conn track s1)).senders
      = aset conn (((alookup conn s1.senders).getD []) ++ [track]) s1.senders :=
    rfl
  refine ⟨rfl, ?_, alookup_aset_self _ _ _, ?_⟩
  · rw [hsend, alookup_aset_self, e3]
    rfl
  · have hc2 : alookup p (updateLocalMediaState p true (some track)
        (addSender conn track s1)).connections = some conn := by
      rw [show (updateLocalMediaState p true (some track)
          (addSender conn track s1)).connections = s1.connections from rfl, e1]
      exact hc
    have hg2 : getLocalStream gum (updateLocalMediaState p true (some track)
        (addSender conn track s1))
        = some (track, updateLocalMediaState p true (some track)
            (addSender conn track s1)) := by
      rw [getLocalStream.eq_def]
      rw [show (updateLocalMediaState p true (some track)
          (addSender conn track s1)).localStream = some track from e4]
    have ha2 : alookup p (updateLocalMediaState p true (some track)
        (addSender conn track s1)).localMediaState = some ⟨true, some track⟩ :=
      alookup_aset_self _ _ _
    have ha2' : isAlreadySharing p (updateLocalMediaState p true (some track)
        (addSender conn track s1)) = true := by
      rw [isAlreadySharing.eq_def, ha2]
    rw [startSharingAudio, hc2, hg2]
    simp only [ha2', if_true]

def c8s0 : SM := addConnection "q" 5 none none "cid" (initSM "me" "nick")

def c8s1 : SM := { c8s0 with localStream := some 9 }

theorem c8_idempotent_witness :
    alookup "q" c8s0.connections = some 5
    ∧ getLocalStream (some 9) c8s0 = some (9, c8s1)
    ∧ ((alookup "q" c8s0.localMediaState).map (fun lm => lm.isSharing)
        ≠ some true)
    ∧ (startSharingAudio (some 9) "q" c8s0).1 = .ok ()
    ∧ startSharingAudio (some 9) "q" (startSharingAudio (some 9) "q" c8s0).2
        = (.ok (), (startSharingAudio (some 9) "q" c8s0).2) :=
  ⟨rfl, rfl, by decide,
   (c8_idempotent (some 9) "q" 5 9 c8s0 c8s1 rfl rfl (by decide)).1,
   (c8_idempotent (some 9) "q" 5 9 c8s0 c8s1 rfl rfl (by decide)).2.2.2⟩

/-- The registry after two `addPendingConnection` calls for the same
token: the first at the state's clock, the second at clock `t1`. -/
def doubleAddState (tok : String) (pc1 pc2 : Nat) (ty : String) (t1 : Nat)
    (s0 : SM) : SM :=
  addPendingConnection tok pc2 ty 60000
    { (addPendingConnection tok pc1 ty 60000 s0) with now := t1 }

/-- ... and then the first entry's timeout fires at its deadline. -/
def doubleAddFired (tok : String) (pc1 pc2 : Nat) (ty : String) (t1 : Nat)
    (s0 : SM) : SM :=
  fireTimer s0.nextTimerId
    { doubleAddState tok pc1 pc2 ty t1 s0 with now := s0.now + 60000 }

/-- The double-add state with the clock advanced to the first entry's
deadline. -/
def dblMid (tok : String) (pc1 pc2 : Nat) (ty : String) (t1 : Nat)
    (s0 : SM) : SM :=
  { doubleAddState tok pc1 pc2 ty t1 s0 with now := s0.now + 60000 }

/-- ... with the fired timeout removed from the scheduled list. -/
def dblCut (tok : String) (pc1 pc2 : Nat) (ty : String) (t1 : Nat)
    (s0 : SM) : SM :=
  { dblMid tok pc1 pc2 ty t1 s0 with
    timers := (dblMid tok pc1 pc2 ty t1 s0).timers.filter
      (fun u => u.id != s0.nextTimerId) }

/-- C9: a second addPending on a connectionToken whose first entry has
neither been taken nor expired overwrites the registry entry without
disarming the first entry's expiry timer; when that first timer fires at
its deadline, it removes the currently stored (second) entry, closes the
second entry's transport session and cancels the second entry's own
timer — all before the second entry's own timeout has elapsed. -/
theorem c9_overwrite_keeps_old_timer (tok : String) (pc1 pc2 : Nat)
    (ty : String) (t1 : Nat) (s0 : SM)
    (h01 : s0.now < t1) (h1in : t1 < s0.now + 60000)
    (hfresh : ∀ t ∈ s0.timers,
      t.id ≠ s0.nextTimerId ∧ t.id ≠ s0.nextTimerId + 1) :
    ((⟨s0.nextTimerId, s0.now + 60000, tok⟩ : TimerRec)
        ∈ (doubleAddState tok pc1 pc2 ty t1 s0).timers)
    ∧ alookup tok (doubleAddState tok pc1 pc2 ty t1 s0).pendingConnections
        = some ⟨pc2, ty, s0.nextTimerId + 1, t1⟩
    ∧ (doubleAddFired tok pc1 pc2 ty t1 s0).closedSessions
        = s0.closedSessions ++ [pc2]
    ∧ alookup tok (doubleAddFired tok pc1 pc2 ty t1 s0).pendingConnections
        = none
    ∧ (∀ u ∈ (doubleAddFired tok pc1 pc2 ty t1 s0).timers,
        u.id ≠ s0.nextTimerId + 1)
    ∧ (doubleAddFired tok pc1 pc2 ty t1 s0).now < t1 + 60000 := by
  have hmem : (⟨s0.nextTimerId, s0.now + 60000, tok⟩ : TimerRec)
      ∈ (doubleAddState tok pc1 pc2 ty t1 s0).timers := by
    show (⟨s0.nextTimerId, s0.now + 60000, tok⟩ : TimerRec)
      ∈ (s0.timers ++ [(⟨s0.nextTimerId, s0.now + 60000, tok⟩ : TimerRec)])
        ++ [(⟨s0.nextTimerId + 1, t1 + 60000, tok⟩ : TimerRec)]
    simp
  have hlook2 : alookup tok
      (doubleAddState tok pc1 pc2 ty t1 s0).pendingConnections
      = some ⟨pc2, ty, s0.nextTimerId + 1, t1⟩ := alookup_aset_self _ _ _
  have h0 : s0.timers.find? (fun t => t.id == s0.nextTimerId) = none :=
    List.find?_eq_none.mpr (fun t ht => by simp [(hfresh t ht).1])
  have hfind : ((dblMid tok pc1 pc2 ty t1 s0).timers.find?
      (fun t => t.id == s0.nextTimerId))
      = some ⟨s0.nextTimerId, s0.now + 60000, tok⟩ := by
    show (((s0.timers ++ [(⟨s0.nextTimerId, s0.now + 60000, tok⟩ : TimerRec)])
        ++ [(⟨s0.nextTimerId + 1, t1 + 60000, tok⟩ : TimerRec)]).find?
      (fun t => t.id == s0.nextTimerId))
      = some ⟨s0.nextTimerId, s0.now + 60000, tok⟩
    rw [List.find?_append, List.find?_append, h0]
    simp
  have hle : (⟨s0.nextTimerId, s0.now + 60000, tok⟩ : TimerRec).fireAt
      ≤ (dblMid tok pc1 pc2 ty t1 s0).now := le_refl _
  have hfired : doubleAddFired tok pc1 pc2 ty t1 s0
      = removePendingConnection tok (dblCut tok pc1 pc2 ty t1 s0) := by
    show fireTimer s0.nextTimerId (dblMid tok pc1 pc2 ty t1 s0)
      = removePendingConnection tok (dblCut tok pc1 pc2 ty t1 s0)
    rw [fireTimer.eq_def, hfind]
    show (if (⟨s0.nextTimerId, s0.now + 60000, tok⟩ : TimerRec).fireAt
        ≤ (dblMid tok pc1 pc2 ty t1 s0).now
      then removePendingConnection tok (dblCut tok pc1 pc2 ty t1 s0)
      else dblMid tok pc1 pc2 ty t1 s0)
      = removePendingConnection tok (dblCut tok pc1 pc2 ty t1 s0)
    rw [if_pos hle]
  have hlook3 : alookup tok (dblCut tok pc1 pc2 ty t1 s0).pendingConnections
      = some ⟨pc2, ty, s0.nextTimerId + 1, t1⟩ := alookup_aset_self _ _ _
  have hrm : doubleAddFired tok pc1 pc2 ty t1 s0
      = { dblCut tok pc1 pc2 ty t1 s0 with
          timers := (dblCut tok pc1 pc2 ty t1 s0).timers.filter
            (fun t => t.id != s0.nextTimerId + 1),
          closedSessions :=
            (dblCut tok pc1 pc2 ty t1 s0).closedSessions ++ [pc2],
          pendingConnections :=
            aerase tok (dblCut tok pc1 pc2 ty t1 s0).pendingConnections } := by
    rw [hfired, removePendingConnection.eq_def, hlook3]
  refine ⟨hmem, hlook2, ?_, ?_, ?_, ?_⟩
  · rw [hrm]
    rfl
  · rw [hrm]
    exact alookup_aerase_self _ _
  · rw [hrm]
    intro u hu
    have := List.of_mem_filter hu
    simpa using this
  · rw [hrm]
    show s0.now + 60000 < t1 + 60000
    omega

theorem c9_overwrite_keeps_old_timer_witness :
    (initSM "me" "nick").now < 1000
    ∧ 1000 < (initSM "me" "nick").now + 60000
    ∧ ((⟨(initSM "me" "nick").nextTimerId, (initSM "me" "nick").now + 60000,
        "t"⟩ : TimerRec)
        ∈ (doubleAddState "t" 4 5 "offer" 1000 (initSM "me" "nick")).timers)
    ∧ (doubleAddFired "t" 4 5 "offer" 1000 (initSM "me" "nick")).closedSessions
        = (initSM "me" "nick").closedSessions ++ [5] :=
  ⟨by decide, by decide,
   (c9_overwrite_keeps_old_timer "t" 4 5 "offer" 1000 (initSM "me" "nick")
     (by decide) (by decide) (fun t ht => absurd ht (List.not_mem_nil t))).1,
   (c9_overwrite_keeps_old_timer "t" 4 5 "offer" 1000 (initSM "me" "nick")
     (by decide) (by decide) (fun t ht => absurd ht (List.not_mem_nil t))).2.2.1⟩

theorem RegInv_of_fields (s s' : SM) (h1 : s'.connections = s.connections)
    (h2 : s'.localMediaState = s.localMediaState)
    (h3 : s'.remoteMediaState = s.remoteMediaState)
    (h4 : s'.peerMetadata = s.peerMetadata) (hinv : RegInv s) : RegInv s' := by
  intro p hp
  rw [h1] at hp
  rw [h2, h3, h4]
  exact hinv p hp

theorem removePending_fields (q : String) (s : SM) :
    (removePendingConnection q s).connections = s.connections
    ∧ (removePendingConnection q s).localMediaState = s.localMediaState
    ∧ (removePendingConnection q s).remoteMediaState = s.remoteMediaState
    ∧ (removePendingConnection q s).peerMetadata = s.peerMetadata := by
  rw [removePendingConnection.eq_def]
  cases h : alookup q s.pendingConnections with
  | some pending => exact ⟨rfl, rfl, rfl, rfl⟩
  | none => exact ⟨rfl, rfl, rfl, rfl⟩

theorem getPending_fields (q : String) (s : SM) :
    (getPendingConnection q s).2.connections = s.connections
    ∧ (getPendingConnection q s).2.localMediaState = s.localMediaState
    ∧ (getPendingConnection q s).2.remoteMediaState = s.remoteMediaState
    ∧ (getPendingConnection q s).2.peerMetadata = s.peerMetadata := by
  rw [getPendingConnection.eq_def]
  cases h : alookup q s.pendingConnections with
  | some pending => exact ⟨rfl, rfl, rfl, rfl⟩
  | none => exact ⟨rfl, rfl, rfl, rfl⟩

theorem fireTimer_fields (tid : Nat) (s : SM) :
    (fireTimer tid s).connections = s.connections
    ∧ (fireTimer tid s).localMediaState = s.localMediaState
    ∧ (fireTimer tid s).remoteMediaState = s.remoteMediaState
    ∧ (fireTimer tid s).peerMetadata = s.peerMetadata := by
  cases h : s.timers.find? (fun t => t.id == tid) with
  | some t =>
    by_cases hle : t.fireAt ≤ s.now
    · have heq : fireTimer tid s = removePendingConnection t.conn
          { s with timers := s.timers.filter (fun u => u.id != tid) } := by
        rw [fireTimer.eq_def, h]
        exact if_pos hle
      rw [heq]
      exact removePending_fields t.conn _
    · have heq : fireTimer tid s = s := by
        rw [fireTimer.eq_def, h]
        exact if_neg hle
      rw [heq]
      exact ⟨rfl, rfl, rfl, rfl⟩
  | none =>
    have heq : fireTimer tid s = s := by
      rw [fireTimer.eq_def, h]
    rw [heq]
    exact ⟨rfl, rfl, rfl, rfl⟩

/-- C10: registry containment — every peerId in the established
connections map also has entries in the local media, remote media and
peer metadata maps; `addConnection` establishes this with isSharing
false and isMuted false, every modelled registry operation preserves it,
and `removeConnection` deletes all four entries together. -/
theorem c10_registry_containment (s : SM) (hinv : RegInv s)
    (p q : String) (c : Nat) (nick pos : Option Json) (cid : String)
    (pc tmo tid : Nat) (ty : String) (sh : Bool) (tr : Option Nat)
    (upd : RemoteMedia) (posj : Json) :
    (RegInv (addConnection p c nick pos cid s)
      ∧ alookup p (addConnection p c nick pos cid s).localMediaState
          = some ⟨false, none⟩
      ∧ alookup p (addConnection p c nick pos cid s).remoteMediaState
          = some ⟨some false, none, none⟩
      ∧ alookup p (addConnection p c nick pos cid s).peerMetadata ≠ none)
    ∧ (RegInv (removeConnection p s)
      ∧ alookup p (removeConnection p s).connections = none
      ∧ alookup p (removeConnection p s).localMediaState = none
      ∧ alookup p (removeConnection p s).remoteMediaState = none
      ∧ alookup p (removeConnection p s).peerMetadata = none)
    ∧ RegInv (addPendingConnection q pc ty tmo s)
    ∧ RegInv (getPendingConnection q s).2
    ∧ RegInv (removePendingConnection q s)
    ∧ RegInv (fireTimer tid s)
    ∧ RegInv (updateLocalMediaState p sh tr s)
    ∧ RegInv (updateRemoteMediaState p upd s)
    ∧ RegInv (updatePeerPosition p posj s) := by
  have hRem : (removeConnection p s).localMediaState
        = aerase p s.localMediaState
      ∧ (removeConnection p s).remoteMediaState = aerase p s.remoteMediaState
      ∧ (removeConnection p s).peerMetadata = aerase p s.peerMetadata
      ∧ alookup p (removeConnection p s).connections = none
      ∧ (∀ p', p' ≠ p → alookup p' (removeConnection p s).connections
          = alookup p' s.connections) := by
    rw [removeConnection.eq_def]
    cases h : alookup p s.connections with
    | some c0 =>
      refine ⟨rfl, rfl, rfl, ?_, ?_⟩
      · exact alookup_aerase_self _ _
      · intro p' hpp
        exact alookup_aerase_ne _ hpp
    | none =>
      refine ⟨rfl, rfl, rfl, h, ?_⟩
      intro p' hpp
      rfl
  refine ⟨⟨?_, alookup_aset_self _ _ _, alookup_aset_self _ _ _, ?_⟩,
    ⟨?_, hRem.2.2.2.1, ?_, ?_, ?_⟩, ?_, ?_, ?_, ?_, ?_, ?_, ?_⟩
  · -- addConnection preserves the invariant
    intro p' hp'
    have e1 : (addConnection p c nick pos cid s).connections
        = aset p c s.connections := rfl
    rw [e1] at hp'
    by_cases hpp : p' = p
    · subst hpp
      refine ⟨?_, ?_, ?_⟩
      · show alookup p' (aset p' (⟨false, none⟩ : LocalMedia)
          s.localMediaState) ≠ none
        rw [alookup_aset_self]
        simp
      · show alookup p' (aset p' (⟨some false, none, none⟩ : RemoteMedia)
          s.remoteMediaState) ≠ none
        rw [alookup_aset_self]
        simp
      · show alookup p' (aset p' (⟨nick, pos, cid, s.now⟩ : PeerMeta)
          s.peerMetadata) ≠ none
        rw [alookup_aset_self]
        simp
    · rw [alookup_aset_ne _ _ hpp] at hp'
      obtain ⟨m1, m2, m3⟩ := hinv p' hp'
      refine ⟨?_, ?_, ?_⟩
      · show alookup p' (aset p (⟨false, none⟩ : LocalMedia)
          s.localMediaState) ≠ none
        rw [alookup_aset_ne _ _ hpp]
        exact m1
      · show alookup p' (aset p (⟨some false, none, none⟩ : RemoteMedia)
          s.remoteMediaState) ≠ none
        rw [alookup_aset_ne _ _ hpp]
        exact m2
      · show alookup p' (aset p (⟨nick, pos, cid, s.now⟩ : PeerMeta)
          s.peerMetadata) ≠ none
        rw [alookup_aset_ne _ _ hpp]
        exact m3
  · -- metadata entry present after addConnection
    show alookup p (aset p (⟨nick, pos, cid, s.now⟩ : PeerMeta)
      s.peerMetadata) ≠ none
    rw [alookup_aset_self]
    simp
  · -- removeConnection preserves the invariant
    intro p' hp'
    by_cases hpp : p' = p
    · subst hpp
      exact absurd hRem.2.2.2.1 hp'
    · rw [hRem.2.2.2.2 p' hpp] at hp'
      obtain ⟨m1, m2, m3⟩ := hinv p' hp'
      rw [hRem.1, hRem.2.1, hRem.2.2.1]
      refine ⟨?_, ?_, ?_⟩
      · rw [alookup_aerase_ne _ hpp]
        exact m1
      · rw [alookup_aerase_ne _ hpp]
        exact m2
      · rw [alookup_aerase_ne _ hpp]
        exact m3
  · rw [hRem.1]
    exact alookup_aerase_self _ _
  · rw [hRem.2.1]
    exact alookup_aerase_self _ _
  · rw [hRem.2.2.1]
    exact alookup_aerase_self _ _
  · exact RegInv_of_fields s _ rfl rfl rfl rfl hinv
  · have h4 := getPending_fields q s
    exact RegInv_of_fields s _ h4.1 h4.2.1 h4.2.2.1 h4.2.2.2 hinv
  · have h4 := removePending_fields q s
    exact RegInv_of_fields s _ h4.1 h4.2.1 h4.2.2.1 h4.2.2.2 hinv
  · have h4 := fireTimer_fields tid s
    exact RegInv_of_fields s _ h4.1 h4.2.1 h4.2.2.1 h4.2.2.2 hinv
  · -- updateLocalMediaState
    intro p' hp'
    obtain ⟨m1, m2, m3⟩ := hinv p' hp'
    refine ⟨?_, m2, m3⟩
    show alookup p' (aset p (⟨sh, tr⟩ : LocalMedia) s.localMediaState) ≠ none
    by_cases hpp : p' = p
    · subst hpp
      rw [alookup_aset_self]
      simp
    · rw [alookup_aset_ne _ _ hpp]
      exact m1
  · -- updateRemoteMediaState
    intro p' hp'
    obtain ⟨m1, m2, m3⟩ := hinv p' hp'
    refine ⟨m1, ?_, m3⟩
    show alookup p' (aset p (mergeRemote
      ((alookup p s.remoteMediaState).getD ⟨none, none, none⟩) upd)
      s.remoteMediaState) ≠ none
    by_cases hpp : p' = p
    · subst hpp
      rw [alookup_aset_self]
      simp
    · rw [alookup_aset_ne _ _ hpp]
      exact m2
  · -- updatePeerPosition
    rw [updatePeerPosition.eq_def]
    cases h : alookup p s.peerMetadata with
    | none => exact hinv
    | some m =>
      intro p' hp'
      obtain ⟨m1, m2, m3⟩ := hinv p' hp'
      refine ⟨m1, m2, ?_⟩
      show alookup p' (aset p { m with position := some posj }
        s.peerMetadata) ≠ none
      by_cases hpp : p' = p
      · subst hpp
        rw [alookup_aset_self]
        simp
      · rw [alookup_aset_ne _ _ hpp]
        exact m3

theorem c10_registry_containment_witness :
    RegInv (initSM "me" "nick")
    ∧ RegInv (addConnection "p" 3 none none "cid" (initSM "me" "nick"))
    ∧ alookup "p" (addConnection "p" 3 none none "cid"
        (initSM "me" "nick")).localMediaState = some ⟨false, none⟩
    ∧ RegInv (removeConnection "p" (initSM "me" "nick")) :=
  ⟨fun p hp => absurd rfl hp,
   (c10_registry_containment (initSM "me" "nick") (fun p hp => absurd rfl hp)
     "p" "q" 3 none none "cid" 7 60000 0 "offer" false none
     ⟨none, none, none⟩ .null).1.1,
   (c10_registry_containment (initSM "me" "nick") (fun p hp => absurd rfl hp)
     "p" "q" 3 none none "cid" 7 60000 0 "offer" false none
     ⟨none, none, none⟩ .null).1.2.1,
   (c10_registry_containment (initSM "me" "nick") (fun p hp => absurd rfl hp)
     "p" "q" 3 none none "cid" 7 60000 0 "offer" false none
     ⟨none, none, none⟩ .null).2.1.1⟩
